import Mathlib

/-!
Verification of the event-emitter library (src/event-emitter.ts, src/types.ts,
src/index.ts) against its natural-language specification.

The TypeScript classes are shallowly embedded: handler functions are modelled
as entries of a heap (`store`) keyed by numeric identity (JS function-object
identity); the mutable `EventEmitter` instance is an explicit state record
(`St`) threaded through every operation; a JS `throw` (and a rejected promise)
is an `Except.error`; invocation of a user handler appends an entry to an
observation trace.
-/

namespace EventEmitterTS

/-- JS runtime values as far as the emitter inspects them: `instanceof Error`
checks, the synthesized error message, string event names, numbers used as
(invalid) handlers, and handler references passed to internal notifications. -/
inductive Val where
  | null
  | undef
  | num (n : Int)
  | str (s : String)
  | err (msg : String)
  | handlerRef (id : Nat)
  deriving DecidableEq, Repr

/-- The behaviour of a stored callable (or non-callable) value.
`plain fid` is an ordinary user handler that records `(fid, args)` in the
trace and returns `undefined`; `plainThrow` records the call and then throws
`v`; `value v` is a non-callable registered as a handler; `limited` is the
counting closure created by `limitedTimes` (source lines 442-448), whose
mutable `remainingCalls` variable is the `remaining` field of its heap entry. -/
inductive HBeh where
  | plain (fid : Nat)
  | plainThrow (fid : Nat) (v : Val)
  | value (v : Val)
  | limited (event : String) (remaining : Int) (inner : HBeh)
  deriving DecidableEq, Repr

/-- A stored handler object: its behaviour plus the optional `listener`
property declared by `WildcardHandler` (src/types.ts) and consulted by `off`.
No code path in the source ever assigns `listener`, so every creation site
below sets it to `none`. -/
structure HObj where
  beh : HBeh
  listener : Option Nat
  deriving DecidableEq, Repr

/-- `typeof handler === "function"` for a stored value. -/
def HBeh.isFunction : HBeh → Bool
  | .value _ => false
  | _ => true

/-- A flat-registry slot: the source stores either a single handler or an
array of handlers under an event key (single promotes to array on the second
registration). -/
inductive Slot where
  | one (h : Nat)
  | many (hs : List Nat)
  deriving DecidableEq, Repr

/-- The wildcard tree: a node holds the `_listeners` bag registered at this
exact path (single handler or array in the source; a list here, in insertion
order) and the children keyed by segment token. -/
inductive WTree where
  | node (listeners : List Nat) (children : List (String × WTree))

def WTree.listeners : WTree → List Nat
  | .node ls _ => ls

def WTree.children : WTree → List (String × WTree)
  | .node _ cs => cs

def WTree.empty : WTree := .node [] []

/-! Association-list helpers modelling JS object property access
(`obj[key]`, `obj[key] = v`, `delete obj[key]`). Keys are unique in every
reachable state, mirroring JS object keys. -/

def alookup {α : Type} : List (String × α) → String → Option α
  | [], _ => none
  | (k, v) :: t, key => if k = key then some v else alookup t key

def aset {α : Type} : List (String × α) → String → α → List (String × α)
  | [], key, v => [(key, v)]
  | (k, w) :: t, key, v => if k = key then (key, v) :: t else (k, w) :: aset t key v

def aremove {α : Type} : List (String × α) → String → List (String × α)
  | [], _ => []
  | (k, w) :: t, key => if k = key then t else (k, w) :: aremove t key

def nlookup {α : Type} : List (Nat × α) → Nat → Option α
  | [], _ => none
  | (k, v) :: t, key => if k = key then some v else nlookup t key

def nset {α : Type} : List (Nat × α) → Nat → α → List (Nat × α)
  | [], key, v => [(key, v)]
  | (k, w) :: t, key, v => if k = key then (key, v) :: t else (k, w) :: nset t key v

/-- The emitter instance state. `trace` records every completed user-handler
call `(fid, args)`; `warnings` counts `console.warn` leak diagnostics.
The source also declares `globalHandlers` and `globalInternalHandlers`
(lines 247-252), but no code path ever adds to them, so they stay empty
for every reachable instance and are omitted here. -/
structure St where
  eventHandlers : List (String × Slot)
  internalHandlers : List (String × List Nat)
  store : List (Nat × HObj)
  nextId : Nat
  trace : List (Nat × List Val)
  warnings : Nat
  supportsWildcards : Bool
  delimiter : Char
  notifyNewListener : Bool
  notifyRemoveListener : Bool
  maxHandlersCount : Int
  detailedLeakWarnings : Bool
  suppressErrors : Bool
  wildcardTree : WTree

/-- `new EventEmitter(settings)` with the defaults of the constructor
(source lines 282-293). The namespace delimiter is modelled as a single
character; every configuration in the claims uses the default dot. -/
def mkEmitter (useWildcards suppressErrors : Bool) : St :=
  { eventHandlers := []
    internalHandlers := []
    store := []
    nextId := 1
    trace := []
    warnings := 0
    supportsWildcards := useWildcards
    delimiter := '.'
    notifyNewListener := false
    notifyRemoveListener := false
    maxHandlersCount := 10
    detailedLeakWarnings := false
    suppressErrors := suppressErrors
    wildcardTree := WTree.empty }

/-- `event.split(delimiter)` on the char sequence of the name, for a
one-character delimiter (the default "."). Matches JS `String.prototype.split`
on these inputs: "a.b" gives ["a","b"], "a" gives ["a"]. -/
def splitSegsAux (d : Char) (acc : List Char) : List Char → List String
  | [] => [String.mk acc.reverse]
  | c :: rest =>
      if c = d then String.mk acc.reverse :: splitSegsAux d [] rest
      else splitSegsAux d (c :: acc) rest

/-- `parseEventName` (source lines 734-744) for a string event name. -/
def parseEventName (delim : Char) (event : String) : List String :=
  splitSegsAux delim [] event.data

/-! ### The wildcard pattern tree (source lines 600-712) -/

/-- Append a handler to a `_listeners` bag (source single-to-array promotion:
absent becomes the handler, a single becomes a two-element array, an array is
pushed to; in every case the bag content in insertion order is `ls ++ [h]`). -/
def WTree.addListener (h : Nat) : WTree → WTree
  | .node ls cs => .node (ls ++ [h]) cs

/-- `tree[part]` child access. -/
def WTree.childOf (t : WTree) (k : String) : Option WTree :=
  alookup t.children k

/-- `currentLevel = currentLevel[part] = currentLevel[part] || {}` followed by
an update of the child: descends into the child for `k`, creating an empty
node if absent (JS appends a fresh key in insertion order). -/
def WTree.modifyChild (t : WTree) (k : String) (f : WTree → WTree) : WTree :=
  match t with
  | .node ls cs =>
      match alookup cs k with
      | some c => .node ls (aset cs k (f c))
      | none => .node ls (aset cs k (f WTree.empty))

/-- `addToWildcardTree` (source lines 664-712): walk the pattern segments,
creating nodes; a `**` segment additionally records the handler at the node
*before* descending (so a deep wildcard matches at its own depth, i.e. zero
trailing segments); the final segment records the handler at the reached node.
The source has two top-level branches (pattern contains a wildcard or not),
but both perform exactly this walk: the only extra step, the pre-add for
`**`, cannot fire in the no-wildcard branch. -/
def addPath : List String → Nat → WTree → WTree
  | [], _, t => t
  | p :: rest, h, t =>
      let t1 := if p = "**" then t.addListener h else t
      t1.modifyChild p (fun c =>
        if rest.isEmpty then c.addListener h else addPath rest h c)

/-- The recursive `traverse` helper of `findWildcardHandlers` (source lines
607-653), with an explicit recursion budget making the function structurally
recursive.  Each recursive call of the source strictly decreases the measure
`2 * parts.length + (if isDeepWildcard then 0 else 1)` (the only call keeping
`parts` intact flips `isDeepWildcard` from false to true), so a budget of
`2 * parts.length + 1` is never exhausted; `traverseFuel_congr` below proves
the budget irrelevant. -/
def traverseFuel : Nat → List String → WTree → Bool → List Nat
  | 0, _, _, _ => []
  | _ + 1, [], t, _ => t.listeners
  | fuel + 1, current :: rest, t, isDeep =>
      (match t.childOf current with
       | some c => traverseFuel fuel rest c false
       | none => []) ++
      (match t.childOf "*" with
       | some c => traverseFuel fuel rest c false
       | none => []) ++
      (match t.childOf "**" with
       | some c =>
           c.listeners ++ traverseFuel fuel rest c true ++
           (if isDeep then [] else traverseFuel fuel (current :: rest) c true)
       | none => [])

/-- The measure that bounds the recursion depth of `traverse`: every
recursive call of the source strictly decreases it, and it is at least one,
so a budget equal to it never runs out. -/
def traverseMeasure (parts : List String) (isDeep : Bool) : Nat :=
  2 * parts.length + (if isDeep then 1 else 2)

/-- `[...new Set(found)]`: deduplicate keeping the first occurrence of each
element, in order — exactly the iteration order of a JS `Set`, which skips an
inserted element already seen. -/
def dedupFirstAux (seen : List Nat) : List Nat → List Nat
  | [] => []
  | a :: l =>
      if a ∈ seen then dedupFirstAux seen l
      else a :: dedupFirstAux (a :: seen) l

def dedupFirst (l : List Nat) : List Nat := dedupFirstAux [] l

/-- `findWildcardHandlers` (source lines 600-657) on an already-parsed
segment list: traverse the tree and deduplicate the collected handlers. -/
def findWildcardHandlersSegs (t : WTree) (parts : List String) : List Nat :=
  dedupFirst (traverseFuel (2 * parts.length + 2) parts t false)

/-- `findWildcardHandlers` on a string event name. -/
def findWildcardHandlers (s : St) (event : String) : List Nat :=
  findWildcardHandlersSegs s.wildcardTree (parseEventName s.delimiter event)

/-! ### Registration, removal and dispatch (source lines 296-593) -/

/-- Invocation of an internal-notification handler (`emitInternal`, source
lines 338-346, calls each stored handler directly). Internal handlers are the
raw callables the user registered under `newListener` / `removeListener`;
in every configuration the claims touch they are plain functions, and a plain
call is recorded in the trace. -/
def invokeSimple (h : Nat) (args : List Val) (s : St) : St :=
  match nlookup s.store h with
  | some o =>
      match o.beh with
      | .plain fid => { s with trace := s.trace ++ [(fid, args)] }
      | _ => s
  | none => s

/-- `emitInternal` (source lines 338-346). -/
def emitInternal (event : String) (args : List Val) (s : St) : St :=
  match alookup s.internalHandlers event with
  | some hs => hs.foldl (fun acc h => invokeSimple h args acc) s
  | none => s

/-- `checkHandlerLimit` (source lines 751-760): warn when the count exceeds a
positive threshold. -/
def checkHandlerLimit (count : Int) (s : St) : St :=
  if 0 < s.maxHandlersCount ∧ s.maxHandlersCount < count then
    { s with warnings := s.warnings + 1 }
  else s

/-- The flat-registry insertion of `on` (source lines 383-398): absent slot
takes the single handler; a single slot promotes to a two-element array; an
array is pushed to; the two latter cases run the leak check with the new
count. -/
def insertFlat (event : String) (h : Nat) (s : St) : St :=
  match alookup s.eventHandlers event with
  | none => { s with eventHandlers := aset s.eventHandlers event (.one h) }
  | some (.one h0) =>
      checkHandlerLimit 2
        { s with eventHandlers := aset s.eventHandlers event (.many [h0, h]) }
  | some (.many l) =>
      checkHandlerLimit (l.length + 1)
        { s with eventHandlers := aset s.eventHandlers event (.many (l ++ [h])) }

/-- `prepareHandler` (source lines 302-331) under the default options used
throughout the claims (`runAsync`, `useNextTick`, `promisify` all unset): the
default for `promisify` reads `handler.constructor.name`, which throws on a
null-ish handler; a plain function is not an `AsyncFunction`, so all three
flags are false and the handler is returned unchanged (line 312). The
deferred-scheduling wrappers are timing behaviour outside this model. -/
def prepareHandler (h : Nat) (s : St) : Except Val Nat :=
  match nlookup s.store h with
  | some { beh := .value .null, .. } =>
      .error (.err "TypeError: cannot read properties of null")
  | some { beh := .value .undef, .. } =>
      .error (.err "TypeError: cannot read properties of undefined")
  | _ => .ok h

/-- The new-listener notification step of `on` (source lines 376-378). -/
def notifyNew (event : String) (h : Nat) (s : St) : St :=
  if s.notifyNewListener then
    emitInternal "newListener" [.str event, .handlerRef h] s
  else s

/-- The remove-listener notification step of `off` (source lines 555-560,
575-580, 584-589). -/
def notifyRemoved (event : String) (h : Nat) (s : St) : St :=
  if s.notifyRemoveListener then
    emitInternal "removeListener" [.str event, .handlerRef h] s
  else s

/-- `h === handler || h.listener === handler` (source lines 570-571): the
identity comparison used by `off` to locate a registration. -/
def handlerMatches (s : St) (stored target : Nat) : Bool :=
  stored = target ||
    (match nlookup s.store stored with
     | some o => o.listener = some target
     | none => false)

/-- `off` (source lines 537-593). In wildcard mode the source iterates the
*matched handler functions* and reads their `_listeners` property; handler
functions never carry `_listeners` (that is a tree-node property), so
`Array.isArray(undefined)` fails for every match and the tree is left
unchanged. In flat mode: an array slot is spliced at the first identity
match (deleting the key when the array empties), a single slot is deleted on
identity match, and on a successful removal the remove-listener notification
fires when enabled. -/
def off (event : String) (h : Nat) (s : St) : St :=
  if s.supportsWildcards then
    s
  else
    match alookup s.eventHandlers event with
    | some (.many l) =>
        match l.findIdx? (fun h' => handlerMatches s h' h) with
        | some i =>
            let l' := l.eraseIdx i
            if l' = [] then
              notifyRemoved event h { s with eventHandlers := aremove s.eventHandlers event }
            else
              notifyRemoved event h { s with eventHandlers := aset s.eventHandlers event (.many l') }
        | none => s
    | some (.one h') =>
        if handlerMatches s h' h then
          notifyRemoved event h { s with eventHandlers := aremove s.eventHandlers event }
        else s
    | none => s

/-- Calling a stored behaviour with `args`. A `plain` handler records its
call and returns `undefined`; a `plainThrow` handler records its call and
throws; calling a non-function raises a `TypeError`; the `limitedTimes`
wrapper (source lines 443-448) decrements its captured `remainingCalls`,
removes itself via `off` exactly when the decremented value is zero, and then
invokes the wrapped handler. `selfId` is the heap identity of the executing
function object (`wrappedHandler` in the source). -/
def invokeBeh (selfId : Nat) : HBeh → List Val → St → St × Except Val Val
  | .plain fid, args, s =>
      ({ s with trace := s.trace ++ [(fid, args)] }, .ok .undef)
  | .plainThrow fid v, args, s =>
      ({ s with trace := s.trace ++ [(fid, args)] }, .error v)
  | .value _, _, s =>
      (s, .error (.err "TypeError: handler is not a function"))
  | .limited event remaining inner, args, s =>
      let r' := remaining - 1
      let s1 :=
        { s with
          store := nset s.store selfId { beh := .limited event r' inner, listener := none } }
      let s2 := if r' = 0 then off event selfId s1 else s1
      invokeBeh selfId inner args s2

/-- Calling the stored function object with heap identity `h`. -/
def invokeH (h : Nat) (args : List Val) (s : St) : St × Except Val Val :=
  match nlookup s.store h with
  | some o => invokeBeh h o.beh args s
  | none => (s, .error (.err "TypeError: handler is not a function"))

/-- `handlers.forEach(handler => handler(...args))` respectively
`handlers.map(...)`: invoke the handlers left to right, collecting results;
a thrown error aborts the iteration and propagates. The source iterates the
live array; this iterates the list resolved at call time — equivalent here
because a counting wrapper only ever removes itself from a *single* slot
(a lone registration never shares an array), and no other handler mutates
the registry during dispatch in any configuration treated below. -/
def invokeList (hs : List Nat) (args : List Val) (s : St) : St × Except Val (List Val) :=
  match hs with
  | [] => (s, .ok [])
  | h :: rest =>
      match invokeH h args s with
      | (s1, .ok v) =>
          match invokeList rest args s1 with
          | (s2, .ok vs) => (s2, .ok (v :: vs))
          | (s2, .error e) => (s2, .error e)
      | (s1, .error e) => (s1, .error e)

/-- `on` (source lines 355-409) for a single event name, default options.
The two reserved internal names route the *raw* handler into the internal
table; otherwise the new-listener notification fires when enabled, then the
prepared handler is stored into the tree or the flat registry. `on` performs
no callable check: whatever value survived `prepareHandler` is stored. -/
def onF (event : String) (h : Nat) (s : St) : Except Val St :=
  match prepareHandler h s with
  | .error v => .error v
  | .ok ph =>
      if event = "newListener" ∨ event = "removeListener" then
        .ok { s with
              internalHandlers :=
                aset s.internalHandlers event
                  ((alookup s.internalHandlers event).getD [] ++ [h]) }
      else
        let s1 := notifyNew event h s
        if s1.supportsWildcards then
          .ok { s1 with
                wildcardTree := addPath (parseEventName s1.delimiter event) ph s1.wildcardTree }
        else
          .ok (insertFlat event ph s1)

/-- `limitedTimes` (source lines 432-451): reject non-functions, then build
the counting wrapper (a fresh function object, hence a fresh heap identity,
with *no* `listener` tag) and register it through `on`. -/
def limitedTimesF (event : String) (times : Int) (h : Nat) (s : St) : Except Val St :=
  match nlookup s.store h with
  | some o =>
      if o.beh.isFunction then
        let w := s.nextId
        let s1 :=
          { s with
            store := s.store ++ [(w, { beh := .limited event times o.beh, listener := none })]
            nextId := w + 1 }
        onF event w s1
      else .error (.err "Handler must be a function")
  | none => .error (.err "Handler must be a function")

/-- `once` (source lines 417-423) is `limitedTimes` with count 1. -/
def onceF (event : String) (h : Nat) (s : St) : Except Val St :=
  limitedTimesF event 1 h s

/-- The `args[0] instanceof Error ? args[0] : new Error(...)` payload of an
unhandled reserved error event (source lines 478-480). -/
def errorPayload (args : List Val) : Val :=
  match args.head? with
  | some (.err m) => .err m
  | _ => .err "Uncaught, unspecified error event."

/-- `emit` (source lines 459-494). The initial
`!this.eventHandlers && !this.globalHandlers` guard can never fire (both
fields are always objects) and the two global-handler loops run over lists
nothing ever adds to. In wildcard mode the resolved value is an *array*
(possibly empty) — a truthy JS value — so the `!handlers` branch, and with it
the reserved-error throw, is reachable only in flat mode. A single stored
non-function falls through the `typeof` test into `handlers.forEach`, a
`TypeError`. Returns the mutated state and either the thrown value or the
boolean result. -/
def emit (event : String) (args : List Val) (s : St) : St × Except Val Bool :=
  if s.supportsWildcards then
    match invokeList (findWildcardHandlers s event) args s with
    | (s1, .ok _) => (s1, .ok true)
    | (s1, .error v) => (s1, .error v)
  else
    match alookup s.eventHandlers event with
    | none =>
        if event = "error" ∧ ¬ s.suppressErrors then (s, .error (errorPayload args))
        else (s, .ok false)
    | some (.one h) =>
        match nlookup s.store h with
        | some o =>
            if o.beh.isFunction then
              match invokeH h args s with
              | (s1, .ok _) => (s1, .ok true)
              | (s1, .error v) => (s1, .error v)
            else (s, .error (.err "TypeError: handlers.forEach is not a function"))
        | none => (s, .error (.err "TypeError: handlers.forEach is not a function"))
    | some (.many l) =>
        match invokeList l args s with
        | (s1, .ok _) => (s1, .ok true)
        | (s1, .error v) => (s1, .error v)

/-- `emitAsync` (source lines 502-530): same handler resolution; with no
handlers the reserved error event yields a rejected promise unless
suppressed, and otherwise the (empty) global-promise list resolves; with
handlers, every handler is invoked and the results are collected — a
synchronous throw inside the `.map` rejects the combined promise, so later
handlers are not invoked. `Except.error` is a rejected promise, `Except.ok`
a resolved one. -/
def emitAsync (event : String) (args : List Val) (s : St) : St × Except Val (List Val) :=
  if s.supportsWildcards then
    invokeList (findWildcardHandlers s event) args s
  else
    match alookup s.eventHandlers event with
    | none =>
        if event = "error" ∧ ¬ s.suppressErrors then (s, .error (errorPayload args))
        else (s, .ok [])
    | some (.one h) => invokeList [h] args s
    | some (.many l) => invokeList l args s

/-- `n` successive `emit` calls with the same event and arguments; each call
may throw, but the instance (and its trace) persists across calls. -/
def emitN : Nat → String → List Val → St → St
  | 0, _, _, s => s
  | n + 1, event, args, s => emitN n event args (emit event args s).1

/-- Test-harness helper: `on` discarding a registration failure (none of the
setups below can fail). -/
def onD (event : String) (h : Nat) (s : St) : St :=
  match onF event h s with
  | .ok s1 => s1
  | .error _ => s

/-- Test-harness helper: `limitedTimes` discarding a registration failure. -/
def limitedD (event : String) (times : Int) (h : Nat) (s : St) : St :=
  match limitedTimesF event times h s with
  | .ok s1 => s1
  | .error _ => s

/-- Test-harness helper: `once` discarding a registration failure. -/
def onceD (event : String) (h : Nat) (s : St) : St :=
  match onceF event h s with
  | .ok s1 => s1
  | .error _ => s

/-- A fresh emitter whose heap holds one plain function per listed identity
(the user-supplied handlers that will be registered). -/
def withPlains (ids : List Nat) (s : St) : St :=
  { s with
    store := ids.map (fun i => (i, { beh := .plain i, listener := none }))
    nextId := ids.foldl (fun m i => max m i) 0 + 1 }

/-! ### The alternate Set-based emitter (src/index.ts) -/

/-- The behaviour of a listener of the dispatch-style emitter: a plain
listener, or one whose body throws `v` after being entered. -/
inductive LBeh where
  | plain
  | throws (v : Val)
  deriving DecidableEq, Repr

/-- The state of the Set-based `EventEmitter` of src/index.ts: per-type JS
`Set`s of listeners (insertion-ordered, duplicate-free lists), the heap of
listener behaviours, a trace recording every listener call
`(listener, type, payload)`, and the `console.error` log fed by the catch
block of `dispatch`. -/
structure SESt where
  listeners : List (String × List Nat)
  lstore : List (Nat × LBeh)
  strace : List (Nat × String × Val)
  errlog : List Val
  deriving DecidableEq, Repr

/-- A fresh Set-based emitter over a given listener heap. -/
def mkSetEmitter (ls : List (Nat × LBeh)) : SESt :=
  { listeners := [], lstore := ls, strace := [], errlog := [] }

/-- `addEventListener` (src/index.ts lines 22-31): create the `Set` on first
use, then `Set.add` — a no-op when the listener is already present. -/
def addEventListener (ty : String) (l : Nat) (s : SESt) : SESt :=
  match alookup s.listeners ty with
  | none => { s with listeners := aset s.listeners ty [l] }
  | some ls =>
      { s with listeners := aset s.listeners ty (if l ∈ ls then ls else ls ++ [l]) }

/-- `removeEventListener` (src/index.ts lines 33-39): `Set.delete`. -/
def removeEventListener (ty : String) (l : Nat) (s : SESt) : SESt :=
  match alookup s.listeners ty with
  | none => s
  | some ls => { s with listeners := aset s.listeners ty (ls.erase l) }

/-- One iteration of the `dispatch` loop (src/index.ts lines 46-52):
`try { listener(type, payload) } catch (error) { console.error(error) }` —
the call is always made (recorded in `strace`), and a thrown error is caught
and logged rather than propagated. -/
def dispatchStep (ty : String) (payload : Val) (s : SESt) (l : Nat) : SESt :=
  let s1 := { s with strace := s.strace ++ [(l, ty, payload)] }
  match nlookup s1.lstore l with
  | some (LBeh.throws v) => { s1 with errlog := s1.errlog ++ [v] }
  | _ => s1

/-- `dispatch` (src/index.ts lines 41-54): iterate the `Set` for the type
(or an empty one), calling every listener under a per-listener catch; always
returns normally. -/
def dispatch (ty : String) (payload : Val) (s : SESt) : SESt :=
  ((alookup s.listeners ty).getD []).foldl (dispatchStep ty payload) s

/-- `propagate` (src/index.ts lines 56-62) just forwards to `dispatch`. -/
def propagate (ty : String) (payload : Val) (s : SESt) : SESt :=
  dispatch ty payload s

/-- `n` successive identical `addEventListener` calls. -/
def addN : Nat → String → Nat → SESt → SESt
  | 0, _, _, s => s
  | n + 1, ty, l, s => addN n ty l (addEventListener ty l s)

/-- The listener `Set` stored for a type, as a list. -/
def listAtSE (s : SESt) (ty : String) : List Nat :=
  (alookup s.listeners ty).getD []

/-! ### Setup states shared by the claim theorems -/

/-- `setMaxHandlers` (source lines 766-769). -/
def setMaxHandlers (count : Int) (s : St) : St :=
  { s with maxHandlersCount := count }

/-- A flat-mode emitter holding one plain function (heap identity 1). -/
def flatBase : St := withPlains [1] (mkEmitter false false)

/-- A wildcard-mode emitter holding one plain function (heap identity 1). -/
def wildcardBase : St := withPlains [1] (mkEmitter true false)

/-- A flat-mode emitter whose heap holds a non-callable (the number 42)
under identity 9. -/
def valueBase : St :=
  { mkEmitter false false with
    store := [(9, { beh := .value (.num 42), listener := none })]
    nextId := 10 }

/-- The flat registry entry produced by registering `done` handlers, in
order, on one event: absent, a single handler, or an array. -/
def slotList (e : String) : List Nat → List (String × Slot)
  | [] => []
  | [h] => [(e, .one h)]
  | l => [(e, .many l)]

/-- The instance state reached after registering the plain handlers `done`
(in order, via `on`) for event `e` on a leak-check-disabled flat emitter
whose heap holds the plain functions `ids`. -/
def regState (e : String) (ids done : List Nat) : St :=
  { setMaxHandlers 0 (withPlains ids (mkEmitter false false)) with
    eventHandlers := slotList e done }

/-- The instance state mid-way through the `limitedTimes` scenario: heap
identity 1 is the user handler, identity 2 the counting wrapper with
`remainingCalls = r`, registered (still) for `e`; `tr` is the trace so far. -/
def limitedState (e : String) (r : Int) (tr : List (Nat × List Val)) : St :=
  { mkEmitter false false with
    eventHandlers := [(e, .one 2)]
    store := [(1, { beh := .plain 1, listener := none }),
              (2, { beh := .limited e r (.plain 1), listener := none })]
    nextId := 3
    trace := tr }

/-- The instance state after the counting wrapper removed itself: the
registry is empty again, the wrapper object survives with count 0. -/
def limitedDone (e : String) (tr : List (Nat × List Val)) : St :=
  { mkEmitter false false with
    eventHandlers := []
    store := [(1, { beh := .plain 1, listener := none }),
              (2, { beh := .limited e 0 (.plain 1), listener := none })]
    nextId := 3
    trace := tr }

/-- A flat emitter with three handlers on "evt": a plain handler 7, a
throwing handler 8, and a plain handler 9 stored after it. -/
def throwDemo : St :=
  { mkEmitter false false with
    eventHandlers := [("evt", .many [7, 8, 9])]
    store := [(7, { beh := .plain 7, listener := none }),
              (8, { beh := .plainThrow 8 (.err "boom"), listener := none }),
              (9, { beh := .plain 9, listener := none })]
    nextId := 10 }

/-- A Set-based emitter with three listeners on "t": plain 7, throwing 8,
plain 9. -/
def seDemo : SESt :=
  { listeners := [("t", [7, 8, 9])]
    lstore := [(7, .plain), (8, .throws (.err "boom")), (9, .plain)]
    strace := []
    errlog := [] }

/-- A registration-layer operation: `on` or `off` for one event/handler. -/
inductive RegOp where
  | add (e : String) (h : Nat)
  | del (e : String) (h : Nat)

/-- Apply one registration operation. -/
def applyOp (s : St) : RegOp → St
  | .add e h => onD e h s
  | .del e h => off e h s

/-- Apply a sequence of `on`/`off` operations to an emitter. -/
def applyOps (ops : List RegOp) (s : St) : St :=
  ops.foldl applyOp s

/-- The registry never maps an event name to an empty handler array. -/
def noEmptySlots (l : List (String × Slot)) : Prop :=
  ∀ p ∈ l, ∀ hs, p.2 = Slot.many hs → hs ≠ []

/-- The handler list stored for an event in flat mode, viewed uniformly:
absent is zero handlers, a single is one, an array is itself. -/
def listAt (s : St) (e : String) : List Nat :=
  match alookup s.eventHandlers e with
  | none => []
  | some (.one h) => [h]
  | some (.many l) => l

/-- The recursion budget is irrelevant as soon as it covers the measure:
the fuel-indexed traversal computes the unique fixpoint of the source's
recursion. -/
theorem traverseFuel_congr :
    ∀ (f g : Nat) (parts : List String) (t : WTree) (isDeep : Bool),
      traverseMeasure parts isDeep ≤ f → traverseMeasure parts isDeep ≤ g →
      traverseFuel f parts t isDeep = traverseFuel g parts t isDeep := by
  intro f
  induction f using Nat.strong_induction_on with
  | _ f ih =>
    intro g parts t isDeep hf hg
    match parts with
    | [] =>
        have hf1 : 0 < f := lt_of_lt_of_le (by cases isDeep <;> simp [traverseMeasure]) hf
        have hg1 : 0 < g := lt_of_lt_of_le (by cases isDeep <;> simp [traverseMeasure]) hg
        obtain ⟨f', rfl⟩ := Nat.exists_eq_succ_of_ne_zero (Nat.pos_iff_ne_zero.mp hf1)
        obtain ⟨g', rfl⟩ := Nat.exists_eq_succ_of_ne_zero (Nat.pos_iff_ne_zero.mp hg1)
        rfl
    | current :: rest =>
        have hm : 1 ≤ traverseMeasure (current :: rest) isDeep := by
          cases isDeep <;> simp [traverseMeasure]
        obtain ⟨f', rfl⟩ := Nat.exists_eq_succ_of_ne_zero
          (Nat.pos_iff_ne_zero.mp (lt_of_lt_of_le hm hf))
        obtain ⟨g', rfl⟩ := Nat.exists_eq_succ_of_ne_zero
          (Nat.pos_iff_ne_zero.mp (lt_of_lt_of_le hm hg))
        have hrestF : traverseMeasure rest false ≤ f' := by
          simp [traverseMeasure] at hf ⊢; cases isDeep <;> simp at hf <;> omega
        have hrestG : traverseMeasure rest false ≤ g' := by
          simp [traverseMeasure] at hg ⊢; cases isDeep <;> simp at hg <;> omega
        have hrestTF : traverseMeasure rest true ≤ f' := by
          simp [traverseMeasure] at hf ⊢; cases isDeep <;> simp at hf <;> omega
        have hrestTG : traverseMeasure rest true ≤ g' := by
          simp [traverseMeasure] at hg ⊢; cases isDeep <;> simp at hg <;> omega
        have hsameF : isDeep = false → traverseMeasure (current :: rest) true ≤ f' := by
          intro hd; subst hd; simp [traverseMeasure] at hf ⊢; omega
        have hsameG : isDeep = false → traverseMeasure (current :: rest) true ≤ g' := by
          intro hd; subst hd; simp [traverseMeasure] at hg ⊢; omega
        have hflt : f' < f' + 1 := Nat.lt_succ_self f'
        have IH1 : ∀ c, traverseFuel f' rest c false = traverseFuel g' rest c false :=
          fun c => ih f' hflt g' rest c false hrestF hrestG
        have IH2 : ∀ c, traverseFuel f' rest c true = traverseFuel g' rest c true :=
          fun c => ih f' hflt g' rest c true hrestTF hrestTG
        show traverseFuel (f' + 1) (current :: rest) t isDeep
           = traverseFuel (g' + 1) (current :: rest) t isDeep
        cases hd : isDeep with
        | true => simp [traverseFuel, hd, IH1, IH2]
        | false =>
            have IH3 : ∀ c, traverseFuel f' (current :: rest) c true
                          = traverseFuel g' (current :: rest) c true :=
              fun c => ih f' hflt g' (current :: rest) c true (hsameF hd) (hsameG hd)
            simp [traverseFuel, hd, IH1, IH2, IH3]

/-- Every element surviving deduplication was in the input and not among the
already-seen elements. -/
theorem dedupFirstAux_mem :
    ∀ (l seen : List Nat) (a : Nat), a ∈ dedupFirstAux seen l → a ∈ l ∧ a ∉ seen := by
  intro l
  induction l with
  | nil => intro seen a h; simp [dedupFirstAux] at h
  | cons b l ih =>
      intro seen a h
      simp only [dedupFirstAux] at h
      by_cases hb : b ∈ seen
      · rw [if_pos hb] at h
        have := ih seen a h
        exact ⟨List.mem_cons_of_mem _ this.1, this.2⟩
      · rw [if_neg hb] at h
        rcases List.mem_cons.mp h with h | h
        · subst h; exact ⟨List.mem_cons_self _ _, hb⟩
        · have := ih (b :: seen) a h
          refine ⟨List.mem_cons_of_mem _ this.1, fun hs => this.2 (List.mem_cons_of_mem _ hs)⟩

/-- `dedupFirst` never keeps two copies of a handler: the resolved handler
set of a wildcard match contains each handler at most once. -/
theorem dedupFirst_nodup (l : List Nat) : (dedupFirst l).Nodup := by
  suffices h : ∀ (l seen : List Nat), (dedupFirstAux seen l).Nodup from h l []
  intro l
  induction l with
  | nil => intro seen; simp [dedupFirstAux]
  | cons b l ih =>
      intro seen
      simp only [dedupFirstAux]
      by_cases hb : b ∈ seen
      · rw [if_pos hb]; exact ih seen
      · rw [if_neg hb]
        refine List.nodup_cons.mpr ⟨fun hmem => ?_, ih (b :: seen)⟩
        exact (dedupFirstAux_mem l (b :: seen) b hmem).2 (List.mem_cons_self _ _)


/-! ### Association-list lemmas -/

theorem alookup_aset_self {α : Type} (l : List (String × α)) (k : String) (v : α) :
    alookup (aset l k v) k = some v := by
  induction l with
  | nil => simp [aset, alookup]
  | cons p t ih =>
      obtain ⟨k', w⟩ := p
      by_cases h : k' = k
      · simp [aset, h, alookup]
      · simp [aset, h, alookup, ih]

theorem alookup_aset_ne {α : Type} (l : List (String × α)) (k k' : String) (v : α)
    (h : k' ≠ k) : alookup (aset l k v) k' = alookup l k' := by
  induction l with
  | nil => simp [aset, alookup, Ne.symm h]
  | cons p t ih =>
      obtain ⟨k0, w⟩ := p
      by_cases h0 : k0 = k
      · subst h0
        simp [aset, alookup, Ne.symm h]
      · simp only [aset, if_neg h0, alookup]
        by_cases h1 : k0 = k' <;> simp [h1, ih]

theorem alookup_aremove_ne {α : Type} (l : List (String × α)) (k k' : String)
    (h : k' ≠ k) : alookup (aremove l k) k' = alookup l k' := by
  induction l with
  | nil => simp [aremove]
  | cons p t ih =>
      obtain ⟨k0, w⟩ := p
      by_cases h0 : k0 = k
      · subst h0
        simp [aremove, alookup, Ne.symm h]
      · simp only [aremove, if_neg h0, alookup]
        by_cases h1 : k0 = k' <;> simp [h1, ih]

theorem alookup_not_mem_keys {α : Type} :
    ∀ (l : List (String × α)) (k : String), k ∉ l.map Prod.fst → alookup l k = none := by
  intro l
  induction l with
  | nil => intro k _; rfl
  | cons p t ih =>
      obtain ⟨k0, w⟩ := p
      intro k hk
      simp only [List.map_cons, List.mem_cons, not_or] at hk
      simp only [alookup, if_neg (fun he : k0 = k => hk.1 he.symm)]
      exact ih k hk.2

theorem alookup_aremove_self {α : Type} (l : List (String × α)) (k : String)
    (hnd : (l.map Prod.fst).Nodup) : alookup (aremove l k) k = none := by
  induction l with
  | nil => simp [aremove, alookup]
  | cons p t ih =>
      obtain ⟨k0, w⟩ := p
      simp only [List.map_cons, List.nodup_cons] at hnd
      by_cases h0 : k0 = k
      · subst h0
        simp only [aremove, if_pos rfl]
        exact alookup_not_mem_keys t k0 hnd.1
      · simp only [aremove, if_neg h0, alookup, if_neg h0]
        exact ih hnd.2

theorem mem_aset {α : Type} (l : List (String × α)) (k : String) (v : α)
    (p : String × α) (h : p ∈ aset l k v) : p = (k, v) ∨ p ∈ l := by
  induction l with
  | nil => simp [aset] at h; simp [h]
  | cons q t ih =>
      obtain ⟨k0, w⟩ := q
      by_cases h0 : k0 = k
      · simp only [aset, if_pos h0] at h
        rcases List.mem_cons.mp h with h | h
        · exact Or.inl h
        · exact Or.inr (List.mem_cons_of_mem _ h)
      · simp only [aset, if_neg h0] at h
        rcases List.mem_cons.mp h with h | h
        · exact Or.inr (by simp [h])
        · rcases ih h with h | h
          · exact Or.inl h
          · exact Or.inr (List.mem_cons_of_mem _ h)

theorem mem_aremove {α : Type} (l : List (String × α)) (k : String)
    (p : String × α) (h : p ∈ aremove l k) : p ∈ l := by
  induction l with
  | nil => simp [aremove] at h
  | cons q t ih =>
      obtain ⟨k0, w⟩ := q
      by_cases h0 : k0 = k
      · simp only [aremove, if_pos h0] at h
        exact List.mem_cons_of_mem _ h
      · simp only [aremove, if_neg h0] at h
        rcases List.mem_cons.mp h with h | h
        · simp [h]
        · exact List.mem_cons_of_mem _ (ih h)

/-! ### State-projection lemmas -/

theorem invokeSimple_eventHandlers (h : Nat) (args : List Val) (s : St) :
    (invokeSimple h args s).eventHandlers = s.eventHandlers := by
  unfold invokeSimple
  cases nlookup s.store h with
  | none => rfl
  | some o =>
      obtain ⟨b, tag⟩ := o
      cases b <;> rfl

theorem emitInternal_eventHandlers (event : String) (args : List Val) (s : St) :
    (emitInternal event args s).eventHandlers = s.eventHandlers := by
  unfold emitInternal
  cases alookup s.internalHandlers event with
  | none => rfl
  | some hs =>
      induction hs generalizing s with
      | nil => rfl
      | cons h t ih => simp only [List.foldl_cons]; rw [ih, invokeSimple_eventHandlers]

theorem checkHandlerLimit_eventHandlers (c : Int) (s : St) :
    (checkHandlerLimit c s).eventHandlers = s.eventHandlers := by
  unfold checkHandlerLimit
  split <;> rfl

theorem notifyNew_eventHandlers (e : String) (h : Nat) (s : St) :
    (notifyNew e h s).eventHandlers = s.eventHandlers := by
  unfold notifyNew
  split
  · exact emitInternal_eventHandlers _ _ _
  · rfl

theorem notifyRemoved_eventHandlers (e : String) (h : Nat) (s : St) :
    (notifyRemoved e h s).eventHandlers = s.eventHandlers := by
  unfold notifyRemoved
  split
  · exact emitInternal_eventHandlers _ _ _
  · rfl

/-! ### The registry never stores an empty handler array (claim C9) -/

theorem noEmptySlots_insertFlat (e : String) (h : Nat) (s : St)
    (hns : noEmptySlots s.eventHandlers) :
    noEmptySlots (insertFlat e h s).eventHandlers := by
  unfold insertFlat
  split
  · intro p hp hs' hmany
    rcases mem_aset _ _ _ _ hp with hp | hp
    · subst hp; simp at hmany
    · exact hns p hp hs' hmany
  · rw [checkHandlerLimit_eventHandlers]
    intro p hp hs' hmany
    rcases mem_aset _ _ _ _ hp with hp | hp
    · subst hp
      simp only at hmany
      cases hmany
      simp
    · exact hns p hp hs' hmany
  · rw [checkHandlerLimit_eventHandlers]
    intro p hp hs' hmany
    rcases mem_aset _ _ _ _ hp with hp | hp
    · subst hp
      simp only at hmany
      cases hmany
      simp
    · exact hns p hp hs' hmany

theorem noEmptySlots_onD (e : String) (h : Nat) (s : St)
    (hns : noEmptySlots s.eventHandlers) :
    noEmptySlots (onD e h s).eventHandlers := by
  unfold onD
  split
  case _ s1 heq =>
    simp only [onF] at heq
    split at heq
    · cases heq
    case _ ph hprep =>
      split at heq
      · cases heq; exact hns
      · split at heq
        · cases heq
          simpa only [notifyNew_eventHandlers] using hns
        · cases heq
          refine noEmptySlots_insertFlat _ _ _ ?_
          simpa only [notifyNew_eventHandlers] using hns
  case _ v heq => exact hns

theorem noEmptySlots_off (e : String) (h : Nat) (s : St)
    (hns : noEmptySlots s.eventHandlers) :
    noEmptySlots (off e h s).eventHandlers := by
  unfold off
  split
  next => exact hns
  next =>
    split
    case h_1 l hslot =>
      split
      case h_1 i hfind =>
        dsimp only
        split
        case isTrue hempty =>
          rw [notifyRemoved_eventHandlers]
          intro p hp hs' hmany
          exact hns p (mem_aremove _ _ _ hp) hs' hmany
        case isFalse hne =>
          rw [notifyRemoved_eventHandlers]
          intro p hp hs' hmany
          rcases mem_aset _ _ _ _ hp with hp | hp
          · subst hp
            simp only at hmany
            cases hmany
            exact hne
          · exact hns p hp hs' hmany
      case h_2 hfind => exact hns
    case h_2 h' hslot =>
      split
      case isTrue hmatch =>
        rw [notifyRemoved_eventHandlers]
        intro p hp hs' hmany
        exact hns p (mem_aremove _ _ _ hp) hs' hmany
      case isFalse hmatch => exact hns
    case h_3 hslot => exact hns

theorem noEmptySlots_applyOps (ops : List RegOp) (s : St)
    (hns : noEmptySlots s.eventHandlers) :
    noEmptySlots ((applyOps ops s).eventHandlers) := by
  induction ops generalizing s with
  | nil => exact hns
  | cons op rest ih =>
      simp only [applyOps, List.foldl_cons]
      cases op with
      | add e h => exact ih _ (noEmptySlots_onD e h s hns)
      | del e h => exact ih _ (noEmptySlots_off e h s hns)

/-! ### `off` removes at most one matching handler (claim C9) -/

theorem off_other_events (e e' : String) (h : Nat) (s : St) (hne : e' ≠ e) :
    alookup (off e h s).eventHandlers e' = alookup s.eventHandlers e' := by
  unfold off
  split
  next => rfl
  next =>
    split
    case h_1 l hslot =>
      split
      case h_1 i hfind =>
        dsimp only
        split
        case isTrue hempty =>
          rw [notifyRemoved_eventHandlers]
          exact alookup_aremove_ne _ _ _ hne
        case isFalse =>
          rw [notifyRemoved_eventHandlers]
          exact alookup_aset_ne _ _ _ _ hne
      case h_2 hfind => rfl
    case h_2 h' hslot =>
      split
      case isTrue hmatch =>
        rw [notifyRemoved_eventHandlers]
        exact alookup_aremove_ne _ _ _ hne
      case isFalse hmatch => rfl
    case h_3 hslot => rfl

theorem listAt_notifyRemoved (e' : String) (h : Nat) (s : St) (e : String) :
    listAt (notifyRemoved e' h s) e = listAt s e := by
  unfold listAt
  rw [notifyRemoved_eventHandlers]

theorem off_removes_at_most_one (e : String) (h : Nat) (s : St)
    (hnd : (s.eventHandlers.map Prod.fst).Nodup) :
    (listAt (off e h s) e).Sublist (listAt s e)
  ∧ (listAt s e).length ≤ (listAt (off e h s) e).length + 1 := by
  unfold off
  split
  next => exact ⟨List.Sublist.refl _, by omega⟩
  next =>
    split
    case h_1 l hslot =>
      split
      case h_1 i hfind =>
        dsimp only
        split
        case isTrue hempty =>
          rw [listAt_notifyRemoved]
          have hlen := List.length_eraseIdx (l := l) (i := i)
          rw [hempty] at hlen
          constructor
          · simp [listAt, alookup_aremove_self _ _ hnd]
          · simp only [listAt, alookup_aremove_self _ _ hnd, hslot, List.length_nil]
            simp at hlen
            split at hlen <;> omega
        case isFalse hne =>
          rw [listAt_notifyRemoved]
          constructor
          · simp only [listAt, alookup_aset_self, hslot]
            exact List.eraseIdx_sublist l i
          · simp only [listAt, alookup_aset_self, hslot]
            have hlen := List.length_eraseIdx (l := l) (i := i)
            split at hlen <;> omega
      case h_2 hfind => exact ⟨List.Sublist.refl _, by omega⟩
    case h_2 h' hslot =>
      split
      case isTrue hmatch =>
        rw [listAt_notifyRemoved]
        constructor
        · simp [listAt, alookup_aremove_self _ _ hnd]
        · simp [listAt, alookup_aremove_self _ _ hnd, hslot]
      case isFalse hmatch => exact ⟨List.Sublist.refl _, by omega⟩
    case h_3 hslot => exact ⟨List.Sublist.refl _, by omega⟩

/-! ### The `limitedTimes` counting wrapper (claims C4, C7) -/

theorem emit_limited_decrement (e : String) (r : Int) (tr : List (Nat × List Val))
    (args : List Val) (hr : ¬ r - 1 = 0) :
    emit e args (limitedState e r tr) = (limitedState e (r - 1) (tr ++ [(1, args)]), .ok true) := by
  simp [emit, limitedState, mkEmitter, alookup, nlookup, nset, invokeH, invokeBeh,
    HBeh.isFunction, hr]

theorem emit_limited_final (e : String) (tr : List (Nat × List Val)) (args : List Val) :
    emit e args (limitedState e 1 tr) = (limitedDone e (tr ++ [(1, args)]), .ok true) := by
  simp [emit, limitedState, limitedDone, mkEmitter, alookup, nlookup, nset, invokeH, invokeBeh,
    HBeh.isFunction, off, handlerMatches, notifyRemoved, aremove]

theorem emit_after_unregister (e : String) (tr : List (Nat × List Val)) (args : List Val) :
    (emit e args (limitedDone e tr)).1 = limitedDone e tr := by
  simp [emit, limitedDone, mkEmitter, alookup]
  split <;> rfl

theorem emitN_after_unregister (e : String) (args : List Val) :
    ∀ (n : Nat) (tr : List (Nat × List Val)),
      emitN n e args (limitedDone e tr) = limitedDone e tr := by
  intro n
  induction n with
  | zero => intro tr; rfl
  | succ m ih =>
      intro tr
      simp only [emitN]
      rw [emit_after_unregister, ih]

theorem limitedTimes_registers (e : String) (k : Int)
    (h1 : ¬ e = "newListener") (h2 : ¬ e = "removeListener") :
    limitedTimesF e k 1 flatBase = Except.ok (limitedState e k []) := by
  simp [limitedTimesF, flatBase, withPlains, mkEmitter, nlookup, HBeh.isFunction, onF,
    prepareHandler, h1, h2, notifyNew, insertFlat, alookup, aset, limitedState, emitInternal]

theorem emitN_limited_counts (e : String) (args : List Val) :
    ∀ (k : Nat), 1 ≤ k → ∀ tr,
      emitN (k + 1) e args (limitedState e (k : Int) tr)
        = limitedDone e (tr ++ List.replicate k (1, args)) := by
  intro k
  induction k with
  | zero => omega
  | succ m ih =>
      intro _ tr
      cases m with
      | zero =>
          simp only [emitN]
          rw [show ((1 : Nat) : Int) = 1 by norm_num, emit_limited_final, emit_after_unregister]
          simp
      | succ m' =>
          simp only [emitN]
          have hstep := emit_limited_decrement e ((m' + 2 : Nat) : Int) tr args (by push_cast; omega)
          rw [hstep]
          have hcast : ((m' + 2 : Nat) : Int) - 1 = ((m' + 1 : Nat) : Int) := by push_cast; omega
          rw [hcast]
          have hrec := ih (by omega) (tr ++ [(1, args)])
          simp only [emitN] at hrec
          rw [hrec]
          simp [List.replicate_succ]

theorem emitN_limited_nonpos (e : String) (args : List Val) :
    ∀ (n : Nat) (r : Int), r ≤ 0 → ∀ tr,
      emitN n e args (limitedState e r tr)
        = limitedState e (r - n) (tr ++ List.replicate n (1, args)) := by
  intro n
  induction n with
  | zero => intro r _ tr; simp [emitN]
  | succ m ih =>
      intro r hr tr
      simp only [emitN]
      rw [emit_limited_decrement e r tr args (by omega)]
      rw [ih (r - 1) (by omega) (tr ++ [(1, args)])]
      have hc : r - 1 - m = r - (m + 1 : Nat) := by push_cast; omega
      rw [hc]
      simp [List.replicate_succ]

/-! ### Claim theorems: closed concrete evaluations -/

/-- C1: the claim states that in *every* configuration, flat or wildcard,
emitting the reserved "error" event with no handler throws (and `emitAsync`
rejects) unless `suppressErrors` is set. Evaluating the code at the failing
input refutes this for wildcard mode: `findWildcardHandlers` returns an
empty *array* — a truthy value — so the no-handler error branch is skipped,
`emit` returns `true` (despite its own doc comment promising `false` when no
listener ran) and `emitAsync` resolves. -/
theorem C1_wildcard_mode_error_event_not_thrown :
    emit "error" [Val.err "boom"] (mkEmitter true false)
      = (mkEmitter true false, Except.ok true)
  ∧ emitAsync "error" [Val.err "boom"] (mkEmitter true false)
      = (mkEmitter true false, Except.ok []) :=
  ⟨rfl, rfl⟩

/-- C2: wildcard matching behaves as the pattern examples specify — a handler
on `ns.*` fires for `ns.a` and `ns.b` but not `ns.a.b`; a handler on `ns.**`
fires for `ns.a`, `ns.a.b`, `ns.a.b.c`; a handler on `ns.*.c.**` fires for
`ns.x.c.y.z` and `ns.x.c` but not `ns.x.d.c`; one handler registered under
two patterns both matching an event is invoked exactly once per emit; and
for every event the resolved handler set is duplicate-free. -/
theorem C2_wildcard_matching :
    ((emit "ns.a" [] (onD "ns.*" 1 wildcardBase)).1.trace = [(1, [])]
      ∧ (emit "ns.b" [] (onD "ns.*" 1 wildcardBase)).1.trace = [(1, [])]
      ∧ (emit "ns.a.b" [] (onD "ns.*" 1 wildcardBase)).1.trace = [])
  ∧ ((emit "ns.a" [] (onD "ns.**" 1 wildcardBase)).1.trace = [(1, [])]
      ∧ (emit "ns.a.b" [] (onD "ns.**" 1 wildcardBase)).1.trace = [(1, [])]
      ∧ (emit "ns.a.b.c" [] (onD "ns.**" 1 wildcardBase)).1.trace = [(1, [])])
  ∧ ((emit "ns.x.c.y.z" [] (onD "ns.*.c.**" 1 wildcardBase)).1.trace = [(1, [])]
      ∧ (emit "ns.x.c" [] (onD "ns.*.c.**" 1 wildcardBase)).1.trace = [(1, [])]
      ∧ (emit "ns.x.d.c" [] (onD "ns.*.c.**" 1 wildcardBase)).1.trace = [])
  ∧ (emit "ns.a" [] (onD "ns.**" 1 (onD "ns.*" 1 wildcardBase))).1.trace = [(1, [])]
  ∧ (∀ (t : WTree) (parts : List String), (findWildcardHandlersSegs t parts).Nodup) := by
  exact ⟨⟨rfl, rfl, rfl⟩, ⟨rfl, rfl, rfl⟩, ⟨rfl, rfl, rfl⟩, rfl,
    fun t parts => dedupFirst_nodup _⟩

/-- C3 counterexample: the claim quantifies over *every* event name, but for
the reserved internal name "newListener", `on` routes the handler into the
internal table while `emit` looks only at the normal registry: the handler is
not invoked and `emit` returns `false`, not `true`. -/
theorem C3_counterexample_reserved_name :
    (emit "newListener" [] (onD "newListener" 1 flatBase)).2 = Except.ok false
  ∧ (emit "newListener" [] (onD "newListener" 1 flatBase)).1.trace = [] :=
  ⟨rfl, rfl⟩

/-- C5: the source never assigns the `listener` tag the spec promises (it is
declared in `WildcardHandler` and checked by `off`, but no creation site sets
it), so `off` with the original handler fails to find the `once` wrapper:
the registration survives (`Slot.one 2` is the wrapper) and a later `emit`
still invokes the handler. -/
theorem C5_off_by_original_leaves_wrapper :
    (off "evt" 1 (onceD "evt" 1 flatBase)).eventHandlers = [("evt", Slot.one 2)]
  ∧ (emit "evt" [] (off "evt" 1 (onceD "evt" 1 flatBase))).1.trace = [(1, [])] :=
  ⟨rfl, rfl⟩

/-- C6 counterexample: the claim states that `on` with a non-callable fails
synchronously at registration, but `on` performs no callable check: passing
the number 42 as a handler succeeds and stores it in the registry. -/
theorem C6_counterexample_on_accepts_noncallable :
    onF "evt" 9 valueBase
      = Except.ok { valueBase with eventHandlers := [("evt", Slot.one 9)] } :=
  rfl

/-! ### Flat-mode registration and dispatch order (claim C3) -/

theorem nlookup_map_plain (ids : List Nat) (h : Nat) :
    nlookup (ids.map (fun i => ((i : Nat), ({ beh := HBeh.plain i, listener := none } : HObj)))) h
        = none
  ∨ nlookup (ids.map (fun i => ((i : Nat), ({ beh := HBeh.plain i, listener := none } : HObj)))) h
        = some { beh := HBeh.plain h, listener := none } := by
  induction ids with
  | nil => exact Or.inl rfl
  | cons i t ih =>
      by_cases hi : i = h
      · subst hi
        right
        simp [nlookup]
      · simpa [nlookup, hi] using ih

theorem plainStore_lookup (ids : List Nat) (h : Nat) (hm : h ∈ ids) :
    nlookup (ids.map (fun i => ((i : Nat), ({ beh := HBeh.plain i, listener := none } : HObj)))) h
      = some { beh := HBeh.plain h, listener := none } := by
  induction ids with
  | nil => simp at hm
  | cons i t ih =>
      by_cases hi : i = h
      · subst hi; simp [nlookup]
      · rcases List.mem_cons.mp hm with hm1 | hm1
        · exact absurd hm1.symm hi
        · simpa [nlookup, hi] using ih hm1

theorem regState_store (e : String) (ids done : List Nat) :
    (regState e ids done).store
      = ids.map (fun i => ((i : Nat), ({ beh := HBeh.plain i, listener := none } : HObj))) := by
  rfl

theorem prepareHandler_regState (e : String) (ids done : List Nat) (h : Nat) :
    prepareHandler h (regState e ids done) = .ok h := by
  unfold prepareHandler
  rw [regState_store]
  rcases nlookup_map_plain ids h with hn | hn <;> rw [hn]

theorem reg_step (e : String) (h : Nat) (ids done : List Nat)
    (h1 : ¬ e = "newListener") (h2 : ¬ e = "removeListener") :
    onD e h (regState e ids done) = regState e ids (done ++ [h]) := by
  unfold onD onF
  rw [prepareHandler_regState]
  simp only [h1, h2, or_self, if_false]
  have hnotify : (regState e ids done).notifyNewListener = false := rfl
  have hwild : (regState e ids done).supportsWildcards = false := rfl
  simp only [notifyNew, hnotify, Bool.false_eq_true, if_false, hwild]
  match done with
  | [] =>
      simp [insertFlat, regState, slotList, alookup, aset, setMaxHandlers, withPlains, mkEmitter]
  | [d0] =>
      simp [insertFlat, regState, slotList, alookup, aset, setMaxHandlers, withPlains, mkEmitter,
        checkHandlerLimit]
  | d0 :: d1 :: dt =>
      simp [insertFlat, regState, slotList, alookup, aset, setMaxHandlers, withPlains, mkEmitter,
        checkHandlerLimit]

theorem reg_fold (e : String) (ids : List Nat)
    (h1 : ¬ e = "newListener") (h2 : ¬ e = "removeListener") :
    ∀ (rest done : List Nat),
      List.foldl (fun s h => onD e h s) (regState e ids done) rest
        = regState e ids (done ++ rest) := by
  intro rest
  induction rest with
  | nil => intro done; simp
  | cons r0 rt ih =>
      intro done
      simp only [List.foldl_cons]
      rw [reg_step e r0 ids done h1 h2, ih]
      simp

theorem invokeList_plains (args : List Val) :
    ∀ (l : List Nat) (s : St),
      (∀ h ∈ l, nlookup s.store h = some { beh := HBeh.plain h, listener := none }) →
      invokeList l args s
        = ({ s with trace := s.trace ++ l.map (fun h => (h, args)) },
           .ok (List.replicate l.length Val.undef)) := by
  intro l
  induction l with
  | nil => intro s _; simp [invokeList]
  | cons h t ih =>
      intro s hmem
      simp only [invokeList, invokeH]
      rw [hmem h (List.mem_cons_self _ _)]
      simp only [invokeBeh]
      rw [ih ({ s with trace := s.trace ++ [(h, args)] })
            (fun x hx => hmem x (List.mem_cons_of_mem _ hx))]
      simp [List.replicate_succ]

/-! ### Exception propagation (claim C8) -/

theorem invokeList_throw (args : List Val) (hT : Nat) (v : Val) (post : List Nat) :
    ∀ (pre : List Nat) (s : St),
      (∀ x ∈ pre, nlookup s.store x = some { beh := HBeh.plain x, listener := none }) →
      nlookup s.store hT = some { beh := HBeh.plainThrow hT v, listener := none } →
      invokeList (pre ++ hT :: post) args s
        = ({ s with trace := s.trace ++ pre.map (fun h => (h, args)) ++ [(hT, args)] },
           .error v) := by
  intro pre
  induction pre with
  | nil =>
      intro s _ hthrow
      simp only [List.nil_append, invokeList, invokeH]
      rw [hthrow]
      simp [invokeBeh]
  | cons p pt ih =>
      intro s hplains hthrow
      simp only [List.cons_append, invokeList, invokeH]
      rw [hplains p (List.mem_cons_self _ _)]
      simp only [invokeBeh, List.append_eq]
      rw [ih ({ s with trace := s.trace ++ [(p, args)] })
            (fun x hx => hplains x (List.mem_cons_of_mem _ hx)) hthrow]
      simp

theorem emit_throwing_propagates (s : St) (e : String) (pre post : List Nat)
    (hT : Nat) (v : Val) (args : List Val)
    (hw : s.supportsWildcards = false)
    (hlook : alookup s.eventHandlers e = some (.many (pre ++ hT :: post)))
    (hplains : ∀ x ∈ pre, nlookup s.store x = some { beh := HBeh.plain x, listener := none })
    (hthrow : nlookup s.store hT = some { beh := HBeh.plainThrow hT v, listener := none }) :
    emit e args s
      = ({ s with trace := s.trace ++ pre.map (fun h => (h, args)) ++ [(hT, args)] },
         .error v) := by
  simp only [emit, hw, Bool.false_eq_true, if_false, hlook]
  rw [invokeList_throw args hT v post pre s hplains hthrow]
  simp [hw]

theorem dispatchStep_strace (ty : String) (p : Val) (s : SESt) (l : Nat) :
    (dispatchStep ty p s l).strace = s.strace ++ [(l, ty, p)] := by
  unfold dispatchStep
  dsimp only
  split <;> rfl

theorem dispatchStep_listeners (ty : String) (p : Val) (s : SESt) (l : Nat) :
    (dispatchStep ty p s l).listeners = s.listeners := by
  unfold dispatchStep
  dsimp only
  split <;> rfl

theorem dispatch_fold_strace (ty : String) (p : Val) :
    ∀ (ls : List Nat) (s : SESt),
      (List.foldl (dispatchStep ty p) s ls).strace
        = s.strace ++ ls.map (fun x => (x, ty, p)) := by
  intro ls
  induction ls with
  | nil => intro s; simp
  | cons l t ih =>
      intro s
      simp only [List.foldl_cons]
      rw [ih, dispatchStep_strace]
      simp

theorem dispatch_strace (ty : String) (p : Val) (s : SESt) :
    (dispatch ty p s).strace = s.strace ++ (listAtSE s ty).map (fun x => (x, ty, p)) := by
  unfold dispatch listAtSE
  exact dispatch_fold_strace ty p _ s

theorem dispatch_fold_plain_err (ty : String) (p : Val) :
    ∀ (ls : List Nat) (s : SESt),
      (∀ x ∈ ls, nlookup s.lstore x = some LBeh.plain) →
      List.foldl (dispatchStep ty p) s ls
        = { s with strace := s.strace ++ ls.map (fun x => (x, ty, p)) } := by
  intro ls
  induction ls with
  | nil => intro s _; simp
  | cons l t ih =>
      intro s hmem
      simp only [List.foldl_cons]
      have hstep : dispatchStep ty p s l = { s with strace := s.strace ++ [(l, ty, p)] } := by
        unfold dispatchStep
        dsimp only
        rw [hmem l (List.mem_cons_self _ _)]
      rw [hstep, ih ({ s with strace := s.strace ++ [(l, ty, p)] })
            (fun x hx => hmem x (List.mem_cons_of_mem _ hx))]
      simp

theorem dispatch_catches_and_continues (s : SESt) (ty : String) (pre post : List Nat)
    (l : Nat) (v : Val) (p : Val)
    (hlook : alookup s.listeners ty = some (pre ++ l :: post))
    (hthrow : nlookup s.lstore l = some (LBeh.throws v))
    (hplains : ∀ x ∈ pre ++ post, nlookup s.lstore x = some LBeh.plain) :
    dispatch ty p s
      = { s with strace := s.strace ++ (pre ++ l :: post).map (fun x => (x, ty, p)),
                 errlog := s.errlog ++ [v] } := by
  unfold dispatch
  rw [hlook]
  simp only [Option.getD_some, List.foldl_append, List.foldl_cons]
  rw [dispatch_fold_plain_err ty p pre s (fun x hx => hplains x (List.mem_append_left _ hx))]
  have hstep : dispatchStep ty p
      ({ s with strace := s.strace ++ pre.map (fun x => (x, ty, p)) }) l
      = { s with strace := s.strace ++ pre.map (fun x => (x, ty, p)) ++ [(l, ty, p)],
                 errlog := s.errlog ++ [v] } := by
    unfold dispatchStep
    dsimp only
    rw [hthrow]
  rw [hstep]
  rw [dispatch_fold_plain_err ty p post
        ({ s with strace := s.strace ++ pre.map (fun x => (x, ty, p)) ++ [(l, ty, p)],
                  errlog := s.errlog ++ [v] })
        (fun x hx => hplains x (List.mem_append_right _ hx))]
  simp

/-! ### The Set-based emitter (claims C8, C10) -/

theorem aset_lookup_self {α : Type} :
    ∀ (l : List (String × α)) (k : String) (v : α), alookup l k = some v → aset l k v = l := by
  intro l
  induction l with
  | nil => intro k v h; simp [alookup] at h
  | cons p t ih =>
      intro k v h
      obtain ⟨k0, w⟩ := p
      by_cases h0 : k0 = k
      · subst h0
        have hw : w = v := by simpa [alookup] using h
        subst hw
        simp [aset]
      · simp only [alookup, if_neg h0] at h
        simp [aset, h0, ih k v h]

theorem listAt_addEventListener (ty : String) (L : Nat) (s : SESt) :
    listAtSE (addEventListener ty L s) ty
      = (if L ∈ listAtSE s ty then listAtSE s ty else listAtSE s ty ++ [L]) := by
  unfold addEventListener listAtSE
  cases ha : alookup s.listeners ty with
  | none => simp [alookup_aset_self, ha]
  | some ls => simp [alookup_aset_self, ha]

theorem mem_listAt_addEventListener (ty : String) (L : Nat) (s : SESt) :
    L ∈ listAtSE (addEventListener ty L s) ty := by
  rw [listAt_addEventListener]
  split
  next h => exact h
  next => simp

theorem addEventListener_mem_fix (ty : String) (L : Nat) (s : SESt)
    (h : L ∈ listAtSE s ty) : addEventListener ty L s = s := by
  unfold addEventListener
  unfold listAtSE at h
  cases ha : alookup s.listeners ty with
  | none => rw [ha] at h; simp at h
  | some ls =>
      rw [ha] at h
      simp only [Option.getD_some] at h
      simp only [if_pos h]
      have := aset_lookup_self s.listeners ty ls ha
      cases s
      simp_all

theorem addN_fixed (ty : String) (L : Nat) :
    ∀ (n : Nat) (s : SESt), L ∈ listAtSE s ty → addN n ty L s = s := by
  intro n
  induction n with
  | zero => intro s _; rfl
  | succ m ih =>
      intro s h
      simp only [addN]
      rw [addEventListener_mem_fix ty L s h, ih s h]

theorem addN_collapse (ty : String) (L : Nat) :
    ∀ (n : Nat), 1 ≤ n → ∀ (s : SESt), addN n ty L s = addEventListener ty L s := by
  intro n
  induction n with
  | zero => omega
  | succ m ih =>
      intro _ s
      simp only [addN]
      cases m with
      | zero => rfl
      | succ m' =>
          rw [ih (by omega) (addEventListener ty L s)]
          rw [addEventListener_mem_fix ty L _ (mem_listAt_addEventListener ty L s)]

theorem count_listAt_addEventListener (ty : String) (L : Nat) (s : SESt)
    (nd : (listAtSE s ty).Nodup) :
    (listAtSE (addEventListener ty L s) ty).count L = 1 := by
  rw [listAt_addEventListener]
  split
  next h => exact List.count_eq_one_of_mem nd h
  next h =>
      rw [List.count_append, List.count_eq_zero.mpr h]
      simp

theorem nodup_listAt_addEventListener (ty : String) (L : Nat) (s : SESt)
    (nd : (listAtSE s ty).Nodup) :
    (listAtSE (addEventListener ty L s) ty).Nodup := by
  rw [listAt_addEventListener]
  split
  next => exact nd
  next h => simpa using List.Nodup.append nd (by simp) (by simpa using h)

theorem listAt_removeEventListener (ty : String) (L : Nat) (s : SESt) :
    listAtSE (removeEventListener ty L s) ty = (listAtSE s ty).erase L := by
  unfold removeEventListener listAtSE
  cases ha : alookup s.listeners ty with
  | none => simp [ha]
  | some ls => simp [alookup_aset_self, ha]

/-! ### Claim theorems with general statements -/

/-- C4: for every `k ≥ 1` and every non-reserved event name, registering a
handler via `limitedTimes(E, k, H)` and emitting `E` `k + 1` times invokes
`H` exactly `k` times (the wrapper removes itself on the `k`-th call); in
particular `once(E, H)` and two emits invoke `H` exactly once. -/
theorem C4_limitedTimes_fires_exactly_k :
    ∀ (k : Nat), 1 ≤ k → ∀ (e : String) (args : List Val),
      ¬ e = "newListener" → ¬ e = "removeListener" →
      (emitN (k + 1) e args (limitedD e (k : Int) 1 flatBase)).trace
          = List.replicate k (1, args)
      ∧ (emitN 2 e args (onceD e 1 flatBase)).trace = [(1, args)] := by
  intro k hk e args h1 h2
  constructor
  · have hD : limitedD e (k : Int) 1 flatBase = limitedState e (k : Int) [] := by
      simp [limitedD, limitedTimes_registers e (k : Int) h1 h2]
    rw [hD, emitN_limited_counts e args k hk []]
    simp [limitedDone]
  · have hD : onceD e 1 flatBase = limitedState e 1 [] := by
      simp [onceD, onceF, limitedD, limitedTimes_registers e 1 h1 h2]
    rw [hD]
    have hl := emitN_limited_counts e args 1 (by omega) []
    norm_num at hl
    rw [hl]
    simp [limitedDone]

/-- C4 witness: the concrete instance `k = 3`, event `"evt"`: four emits
invoke the handler exactly three times. -/
theorem C4_limitedTimes_fires_exactly_k_witness :
    1 ≤ 3
  ∧ (emitN 4 "evt" [Val.num 5] (limitedD "evt" 3 1 flatBase)).trace
      = List.replicate 3 (1, [Val.num 5]) :=
  ⟨by decide,
   (C4_limitedTimes_fires_exactly_k 3 (by decide) "evt" [Val.num 5]
      (by decide) (by decide)).1⟩

/-- C7: for every `times ≤ 0`, the decrement-to-zero check of the
`limitedTimes` wrapper never reaches zero, so the handler never unregisters:
`n` emits invoke it exactly `n` times, for every `n`. -/
theorem C7_nonpositive_times_never_unregisters :
    ∀ (t : Int), t ≤ 0 → ∀ (n : Nat) (e : String) (args : List Val),
      ¬ e = "newListener" → ¬ e = "removeListener" →
      (emitN n e args (limitedD e t 1 flatBase)).trace = List.replicate n (1, args) := by
  intro t ht n e args h1 h2
  have hD : limitedD e t 1 flatBase = limitedState e t [] := by
    simp [limitedD, limitedTimes_registers e t h1 h2]
  rw [hD, emitN_limited_nonpos e args n t ht []]
  simp [limitedState]

/-- C7 witness: `times = 0`, three emits, three invocations. -/
theorem C7_nonpositive_times_never_unregisters_witness :
    (0 : Int) ≤ 0
  ∧ (emitN 3 "evt" [] (limitedD "evt" 0 1 flatBase)).trace = List.replicate 3 (1, []) :=
  ⟨by decide,
   C7_nonpositive_times_never_unregisters 0 (by decide) 3 "evt" [] (by decide) (by decide)⟩

/-- C9: in flat mode, (1) every sequence of `on`/`off` operations keeps the
registry free of empty handler arrays (an emptied array deletes its key);
(2) `off` leaves every other event key untouched; (3) `off` removes at most
one handler from the targeted event, keeping the others in order. -/
theorem C9_off_minimal_removal :
    (∀ ops : List RegOp,
        noEmptySlots ((applyOps ops (mkEmitter false false)).eventHandlers))
  ∧ (∀ (s : St) (e e' : String) (h : Nat), e' ≠ e →
        alookup (off e h s).eventHandlers e' = alookup s.eventHandlers e')
  ∧ (∀ (s : St) (e : String) (h : Nat), (s.eventHandlers.map Prod.fst).Nodup →
        (listAt (off e h s) e).Sublist (listAt s e)
        ∧ (listAt s e).length ≤ (listAt (off e h s) e).length + 1) := by
  refine ⟨fun ops => noEmptySlots_applyOps ops _ ?_,
          fun s e e' h hne => off_other_events e e' h s hne,
          fun s e h hnd => off_removes_at_most_one e h s hnd⟩
  intro p hp hs hm
  simp [mkEmitter] at hp

/-- C9 witness: concrete instances of the hypothesised conjuncts on the
emitter holding handlers 1 and 2 on "a". -/
theorem C9_off_minimal_removal_witness :
    ("b" : String) ≠ "a"
  ∧ alookup (off "a" 1 (onD "a" 2 (onD "a" 1 flatBase))).eventHandlers "b"
      = alookup (onD "a" 2 (onD "a" 1 flatBase)).eventHandlers "b"
  ∧ (((onD "a" 2 (onD "a" 1 flatBase)).eventHandlers.map Prod.fst).Nodup
      ∧ (listAt (off "a" 1 (onD "a" 2 (onD "a" 1 flatBase))) "a").Sublist
          (listAt (onD "a" 2 (onD "a" 1 flatBase)) "a")
      ∧ (listAt (onD "a" 2 (onD "a" 1 flatBase)) "a").length
          ≤ (listAt (off "a" 1 (onD "a" 2 (onD "a" 1 flatBase))) "a").length + 1) :=
  ⟨by decide,
   C9_off_minimal_removal.2.1 (onD "a" 2 (onD "a" 1 flatBase)) "a" "b" 1 (by decide),
   by decide,
   C9_off_minimal_removal.2.2 (onD "a" 2 (onD "a" 1 flatBase)) "a" 1 (by decide)⟩

/-- C3 (amended): in flat mode, for every *non-reserved* event name `e`
(not "newListener"/"removeListener") and every nonempty list of handlers
registered via `on` in order, `emit` invokes exactly those handlers, in
registration order, passing the arguments to each, and returns `true`:
the final state is the registration state with the trace
`[(H1, args), ..., (Hn, args)]`. -/
theorem C3_flat_emit_invokes_in_order :
    ∀ (hs : List Nat) (e : String) (args : List Val),
      hs ≠ [] → ¬ e = "newListener" → ¬ e = "removeListener" →
      emit e args (List.foldl (fun s h => onD e h s)
          (setMaxHandlers 0 (withPlains hs (mkEmitter false false))) hs)
        = ({ regState e hs hs with trace := hs.map (fun h => (h, args)) }, .ok true) := by
  intro hs e args hne h1 h2
  have hbase : setMaxHandlers 0 (withPlains hs (mkEmitter false false)) = regState e hs [] := rfl
  rw [hbase, reg_fold e hs h1 h2 hs []]
  simp only [List.nil_append]
  match hs, hne with
  | [h0], _ =>
      simp [emit, regState, slotList, alookup, setMaxHandlers, withPlains, mkEmitter,
        nlookup, invokeH, invokeBeh, HBeh.isFunction]
  | h0 :: h1' :: ht, _ =>
      have hlook : alookup (regState e (h0 :: h1' :: ht) (h0 :: h1' :: ht)).eventHandlers e
          = some (.many (h0 :: h1' :: ht)) := by
        simp [regState, slotList, alookup]
      have hinv := invokeList_plains args (h0 :: h1' :: ht)
        (regState e (h0 :: h1' :: ht) (h0 :: h1' :: ht))
        (fun x hx => by rw [regState_store]; exact plainStore_lookup _ x hx)
      simp only [emit, hlook, hinv]
      simp [regState, setMaxHandlers, withPlains, mkEmitter]

/-- C3 witness: three handlers registered on "evt" are invoked in order
1, 2, 3, each receiving the argument, and `emit` returns `true`. -/
theorem C3_flat_emit_invokes_in_order_witness :
    ([1, 2, 3] : List Nat) ≠ []
  ∧ emit "evt" [Val.str "x"] (List.foldl (fun s h => onD "evt" h s)
        (setMaxHandlers 0 (withPlains [1, 2, 3] (mkEmitter false false))) [1, 2, 3])
      = ({ regState "evt" [1, 2, 3] [1, 2, 3] with
            trace := [1, 2, 3].map (fun h => (h, [Val.str "x"])) }, .ok true) :=
  ⟨by decide,
   C3_flat_emit_invokes_in_order [1, 2, 3] "evt" [Val.str "x"]
     (by decide) (by decide) (by decide)⟩

/-- C6 (amended): `once` and `limitedTimes` reject a non-callable handler
synchronously ("Handler must be a function"); `on` performs no such check —
it stores the value and returns successfully (for any non-null-ish value,
the only values whose default-option inspection itself throws). -/
theorem C6_once_limitedTimes_reject_noncallable :
    ∀ (e : String) (times : Int) (h : Nat) (s : St) (v : Val) (tag : Option Nat),
      nlookup s.store h = some { beh := .value v, listener := tag } →
      limitedTimesF e times h s = .error (.err "Handler must be a function")
    ∧ onceF e h s = .error (.err "Handler must be a function")
    ∧ (¬ v = .null → ¬ v = .undef → (onF e h s).isOk = true) := by
  intro e times h s v tag hlook
  refine ⟨?_, ?_, ?_⟩
  · unfold limitedTimesF
    rw [hlook]
    simp [HBeh.isFunction]
  · unfold onceF limitedTimesF
    rw [hlook]
    simp [HBeh.isFunction]
  · intro hv1 hv2
    unfold onF prepareHandler
    rw [hlook]
    cases v
    case null => exact absurd rfl hv1
    case undef => exact absurd rfl hv2
    all_goals
      split
      next v heq => simp at heq
      next ph heq =>
        split
        · rfl
        · dsimp only
          split <;> rfl

/-- C6 witness: the number 42 stored under identity 9: both counting
registrations throw, `on` succeeds. -/
theorem C6_once_limitedTimes_reject_noncallable_witness :
    nlookup valueBase.store 9 = some { beh := .value (.num 42), listener := none }
  ∧ limitedTimesF "evt" 2 9 valueBase = .error (.err "Handler must be a function")
  ∧ onceF "evt" 9 valueBase = .error (.err "Handler must be a function")
  ∧ (onF "evt" 9 valueBase).isOk = true :=
  ⟨rfl,
   (C6_once_limitedTimes_reject_noncallable "evt" 2 9 valueBase (.num 42) none rfl).1,
   (C6_once_limitedTimes_reject_noncallable "evt" 2 9 valueBase (.num 42) none rfl).2.1,
   (C6_once_limitedTimes_reject_noncallable "evt" 2 9 valueBase (.num 42) none rfl).2.2
     (by decide) (by decide)⟩

/-- C8: a handler that throws during `emit` aborts the dispatch loop —
handlers registered after it are not invoked — and the thrown value
propagates to the caller; by contrast, `dispatch` of the Set-based emitter
calls every listener under a per-listener catch, logs the thrown value, and
returns normally with every remaining listener still invoked. -/
theorem C8_throw_propagates_vs_dispatch_catches :
    (∀ (s : St) (e : String) (pre post : List Nat) (hT : Nat) (v : Val) (args : List Val),
       s.supportsWildcards = false →
       alookup s.eventHandlers e = some (.many (pre ++ hT :: post)) →
       (∀ x ∈ pre, nlookup s.store x = some { beh := HBeh.plain x, listener := none }) →
       nlookup s.store hT = some { beh := HBeh.plainThrow hT v, listener := none } →
       emit e args s
         = ({ s with trace := s.trace ++ pre.map (fun h => (h, args)) ++ [(hT, args)] },
            .error v))
  ∧ (∀ (s : SESt) (ty : String) (pre post : List Nat) (l : Nat) (v p : Val),
       alookup s.listeners ty = some (pre ++ l :: post) →
       nlookup s.lstore l = some (LBeh.throws v) →
       (∀ x ∈ pre ++ post, nlookup s.lstore x = some LBeh.plain) →
       dispatch ty p s
         = { s with strace := s.strace ++ (pre ++ l :: post).map (fun x => (x, ty, p)),
                    errlog := s.errlog ++ [v] }) :=
  ⟨fun s e pre post hT v args hw hl hp ht =>
      emit_throwing_propagates s e pre post hT v args hw hl hp ht,
   fun s ty pre post l v p hl ht hp =>
      dispatch_catches_and_continues s ty pre post l v p hl ht hp⟩

/-- C8 witness: handler 8 throws between handlers 7 and 9. In the core
emitter the error escapes `emit` and 9 is never called; in the Set-based
emitter all three listeners run and the error is logged. -/
theorem C8_throw_propagates_vs_dispatch_catches_witness :
    alookup throwDemo.eventHandlers "evt" = some (.many ([7] ++ 8 :: [9]))
  ∧ emit "evt" [] throwDemo
      = ({ throwDemo with trace := [(7, []), (8, [])] }, .error (.err "boom"))
  ∧ dispatch "t" (.num 1) seDemo
      = { seDemo with
          strace := [(7, "t", .num 1), (8, "t", .num 1), (9, "t", .num 1)]
          errlog := [.err "boom"] } :=
  ⟨rfl,
   C8_throw_propagates_vs_dispatch_catches.1 throwDemo "evt" [7] [9] 8 (.err "boom") []
     rfl rfl (by decide) rfl,
   C8_throw_propagates_vs_dispatch_catches.2 seDemo "t" [7] [9] 8 (.err "boom") (.num 1)
     rfl rfl (by decide)⟩

/-- C10: in the Set-based emitter, `addEventListener` is idempotent — after
any `n ≥ 1` identical registrations the listener is stored once, a dispatch
calls it exactly once (one more trace entry with its identity than before),
and a single `removeEventListener` removes it so that a further dispatch
calls it zero times. -/
theorem C10_addEventListener_idempotent :
    ∀ (s : SESt) (ty : String) (L : Nat) (n : Nat) (p : Val),
      1 ≤ n → (listAtSE s ty).Nodup →
      (listAtSE (addN n ty L s) ty).count L = 1
    ∧ ((dispatch ty p (addN n ty L s)).strace.countP (fun q => q.1 == L))
        = (addN n ty L s).strace.countP (fun q => q.1 == L) + 1
    ∧ (listAtSE (removeEventListener ty L (addN n ty L s)) ty).count L = 0
    ∧ ((dispatch ty p (removeEventListener ty L (addN n ty L s))).strace.countP
          (fun q => q.1 == L))
        = (removeEventListener ty L (addN n ty L s)).strace.countP (fun q => q.1 == L) := by
  intro s ty L n p hn nd
  rw [addN_collapse ty L n hn s]
  have hcount := count_listAt_addEventListener ty L s nd
  have hmapcount : ∀ (ls : List Nat),
      List.countP (fun (q : Nat × String × Val) => q.1 == L) (ls.map (fun x => (x, ty, p)))
        = ls.count L := by
    intro ls
    rw [List.countP_map]
    rfl
  refine ⟨hcount, ?_, ?_, ?_⟩
  · rw [dispatch_strace, List.countP_append, hmapcount, hcount]
  · rw [listAt_removeEventListener, List.count_erase_self, hcount]
  · rw [dispatch_strace, List.countP_append, hmapcount]
    rw [listAt_removeEventListener, List.count_erase_self, hcount]
    omega

/-- C10 witness: three identical registrations of listener 7 on a fresh
emitter behave as one, and one removal suffices. -/
theorem C10_addEventListener_idempotent_witness :
    1 ≤ 3 ∧ (listAtSE (mkSetEmitter [(7, .plain)]) "t").Nodup
  ∧ (listAtSE (addN 3 "t" 7 (mkSetEmitter [(7, .plain)])) "t").count 7 = 1
  ∧ (listAtSE (removeEventListener "t" 7 (addN 3 "t" 7 (mkSetEmitter [(7, .plain)]))) "t").count 7
      = 0 :=
  ⟨by decide, by decide,
   (C10_addEventListener_idempotent (mkSetEmitter [(7, .plain)]) "t" 7 3 (.num 0)
      (by decide) (by decide)).1,
   (C10_addEventListener_idempotent (mkSetEmitter [(7, .plain)]) "t" 7 3 (.num 0)
      (by decide) (by decide)).2.2.1⟩

end EventEmitterTS
